import Mathlib

/-
Shallow embedding of pykerning's fpdf2-based writer (src/pykerning/writer_fpdf.py).

The Python module is stateful: a single mutable fpdf2 `FPDF` document object is
shared between the session (`FpdfWriter`) and every font handle (`FpdfFont`,
which keeps a back-reference `self.pdf`).  The embedding passes that shared
backend state explicitly: operations that mutate it take an `FPDF` (or an
`FpdfWriter` containing one) and return the updated value.

The fpdf2 library itself is an external collaborator, out of scope of the
repository; the spec (sections 1 and 6) specifies it only at the boundary as a
capability set.  Its state and capabilities are modelled from the spec, with
each such definition marked `Modelled from the spec:` in its doc comment.
Sizes, widths and coordinates are embedded as rationals.
-/

namespace PyKerning

/-- Python str.endswith, faithfully: true iff the second string is a
character-suffix of the first. -/
def strEndsWith (s suf : String) : Bool :=
  suf.toList.isSuffixOf s.toList

/-- Python substring membership over character lists: true iff sub occurs
contiguously inside the list. -/
def listContains (sub : List Char) : List Char → Bool
  | [] => sub.isPrefixOf []
  | c :: t => sub.isPrefixOf (c :: t) || listContains sub t

/-- Python `sub in s` substring test. -/
def strContains (s sub : String) : Bool :=
  listContains sub.toList s.toList

/-- Python dict assignment d[k] = v: replace the value in place when the key is
present (keeping insertion order), append a new entry otherwise. -/
def dictInsert {α : Type} (d : List (String × α)) (k : String) (v : α) :
    List (String × α) :=
  if d.any (fun p => p.1 == k) then
    d.map (fun p => if p.1 == k then (k, v) else p)
  else
    d ++ [(k, v)]

/-- Splits a character list on a separator character; the result is the list
of the (possibly empty) segments between separators. -/
def splitOnChar (sep : Char) : List Char → List (List Char)
  | [] => [[]]
  | c :: t =>
    let r := splitOnChar sep t
    if c == sep then [] :: r
    else
      match r with
      | [] => [[c]]
      | h :: rest => (c :: h) :: rest

/-- Python pathlib PurePath.name: the final path component (the part after
the last separator). -/
def pathName (path : String) : String :=
  String.mk ((splitOnChar '/' path.toList).getLastD [])

/-- Python pathlib PurePath.stem: the final component without its suffix; the
suffix is the last dot segment when that dot is neither the first nor the last
character of the name. -/
def pathStem (path : String) : String :=
  let nm := pathName path
  let cs := nm.toList
  match cs.reverse.findIdx? (fun c => c == '.') with
  | none => nm
  | some j =>
    let i := cs.length - 1 - j
    if 0 < i && i < cs.length - 1 then String.mk (cs.take i) else nm

/-- Unit conversion constant POINTS_PER_INCH = 72 from the source. -/
def POINTS_PER_INCH : ℚ := 72

/-- Unit conversion constant MM_PER_INCH = 25.4 from the source. -/
def MM_PER_INCH : ℚ := 25.4

/-- Font metric ratio FONT_ASCENT_RATIO = 0.8 from the source. -/
def FONT_ASCENT_RATIO : ℚ := 0.8

/-- Font metric ratio FONT_DESCENT_RATIO = 0.2 from the source. -/
def FONT_DESCENT_RATIO : ℚ := 0.2

/-- Font metric ratio FONT_LEADING_RATIO = 0.2 from the source. -/
def FONT_LEADING_RATIO : ℚ := 0.2

/-- Font family constant DEFAULT_FONT_FAMILY from the source. -/
def DEFAULT_FONT_FAMILY : String := "GentiumBasic"

/-- Font style code STYLE_REGULAR from the source. -/
def STYLE_REGULAR : String := ""

/-- Font style code STYLE_ITALIC from the source. -/
def STYLE_ITALIC : String := "I"

/-- Font style code STYLE_BOLD from the source. -/
def STYLE_BOLD : String := "B"

/-- Font style code STYLE_BOLD_ITALIC from the source. -/
def STYLE_BOLD_ITALIC : String := "BI"

/-- Modelled from the spec: the state of the backend document collaborator
(fpdf2 FPDF), which the repository consumes only through the capability set of
section 6: the currently active font triple (family, style, size), the set of
registered fonts, and the accumulated pages.  A fresh instance has the empty
(falsy) family, meaning no font was ever set. -/
structure FPDF where
  font_family : String
  font_style : String
  font_size_pt : ℚ
  fonts : List (String × String × String)
  pages : Nat
deriving DecidableEq

/-- Modelled from the spec: a fresh backend document — no active font, no
registered fonts, no pages. -/
def FPDF.start : FPDF :=
  { font_family := "", font_style := "", font_size_pt := 0, fonts := [], pages := 0 }

/-- Modelled from the spec: backend capability "set active font
(family, style, size)". -/
def FPDF.set_font (p : FPDF) (family style : String) (size : ℚ) : FPDF :=
  { p with font_family := family, font_style := style, font_size_pt := size }

/-- Modelled from the spec: backend capability "measure string width under
current active font" (fpdf2 get_string_width).  The measurement is
character-additive: each glyph's width is given by the width table cw of the
active family and style, in millesimal units of the font size, and the sum is
scaled by the active size in points.  It is a pure query of the backend state. -/
def FPDF.get_string_width (cw : String → String → Char → ℚ) (p : FPDF)
    (text : String) : ℚ :=
  ((text.toList.map (cw p.font_family p.font_style)).sum) * p.font_size_pt / 1000

/-- Modelled from the spec: backend capability "register font file under
(family, style)"; the collaborator keeps the first registration of a
(family, style) key. -/
def FPDF.add_font (p : FPDF) (family style path : String) : FPDF :=
  if p.fonts.any (fun e => e.1 == family && e.2.1 == style) then p
  else { p with fonts := p.fonts ++ [(family, style, path)] }

/-- Modelled from the spec: backend capability "add page". -/
def FPDF.add_page (p : FPDF) : FPDF :=
  { p with pages := p.pages + 1 }

/-- FpdfFont: the font wrapper matching the QtFont interface.  The Python
object also stores a back-reference self.pdf to the session's shared backend
instance; in this state-passing embedding that shared instance is threaded
explicitly through width_of instead of being stored in the handle. -/
structure FpdfFont where
  font_family : String
  font_style : String
  font_size : ℚ
  height : ℚ
  ascent : ℚ
  descent : ℚ
  leading : ℚ
deriving DecidableEq

/-- FpdfFont.__init__: stores the (family, style, size) triple and derives the
vertical metrics from the size using the fixed ratios.  No field is ever
written after construction (the embedding is an immutable structure, matching
the source, which assigns each attribute exactly once in __init__). -/
def FpdfFont.make (font_family font_style : String) (font_size : ℚ) : FpdfFont :=
  { font_family := font_family
    font_style := font_style
    font_size := font_size
    height := font_size
    ascent := font_size * FONT_ASCENT_RATIO
    descent := font_size * FONT_DESCENT_RATIO
    leading := font_size * FONT_LEADING_RATIO }

/-- FpdfFont.width_of: capture the backend's active triple, set the backend's
font to this handle's triple, measure the text, then restore the captured
triple only when a font was active before (Python truthiness of the captured
family: non-empty string).  Returns the measured width together with the
backend state after the call. -/
def FpdfFont.width_of (cw : String → String → Char → ℚ) (f : FpdfFont)
    (pdf : FPDF) (text : String) : ℚ × FPDF :=
  let current_family := pdf.font_family
  let current_style := pdf.font_style
  let current_size := pdf.font_size_pt
  let pdf1 := pdf.set_font f.font_family f.font_style f.font_size
  let width := pdf1.get_string_width cw text
  let pdf2 :=
    if current_family ≠ "" then pdf1.set_font current_family current_style current_size
    else pdf1
  (width, pdf2)

/-- Python exception values raised by the module. -/
inductive PyError where
  | fileNotFoundError (msg : String)
deriving DecidableEq

/-- FpdfWriter: the session state.  path is the output target (none = return
the bytes from close), loaded_fonts maps str(path) to (family_name, style),
fonts maps logical names to handles, current_font is the active handle. -/
structure FpdfWriter where
  path : Option String
  width_pt : ℚ
  height_pt : ℚ
  width_mm : ℚ
  height_mm : ℚ
  pdf : FPDF
  loaded_fonts : List (String × String × String)
  fonts : List (String × FpdfFont)
  current_font : Option FpdfFont
deriving DecidableEq

/-- FpdfWriter.__init__: converts the page size from points to millimeters,
creates the backend document with the custom page size, adds the first page,
and starts with empty registries and no current font.  (The source also
disables the backend's automatic page breaks; that backend flag is not part of
the modelled backend state, since no claim observes it.) -/
def FpdfWriter.make (path : Option String) (width_pt height_pt : ℚ) : FpdfWriter :=
  { path := path
    width_pt := width_pt
    height_pt := height_pt
    width_mm := width_pt * MM_PER_INCH / POINTS_PER_INCH
    height_mm := height_pt * MM_PER_INCH / POINTS_PER_INCH
    pdf := FPDF.start.add_page
    loaded_fonts := []
    fonts := []
    current_font := none }

/-- FpdfWriter.close.  The collaborator's serialization is the parameter
output (Modelled from the spec: capabilities "serialize to bytes" and
"serialize to path").  The result is the pair (byte buffer returned to the
caller, if any; file write performed, if any): with path = none the serialized
bytes are returned, otherwise they are written to the recorded path and
nothing is returned. -/
def FpdfWriter.close (output : FPDF → List Nat) (w : FpdfWriter) :
    Option (List Nat) × Option (String × List Nat) :=
  match w.path with
  | none => (some (output w.pdf), none)
  | some p => (none, some (p, output w.pdf))

/-- The style classification inside FpdfWriter.load_font (the if/elif chain
over the filename stem, source lines 120-127, in source order). -/
def loadFontStyle (filename : String) : String :=
  if strEndsWith filename "I" then STYLE_ITALIC
  else if strEndsWith filename "B" then STYLE_BOLD
  else if strEndsWith filename "BI" || strEndsWith filename "IB" then STYLE_BOLD_ITALIC
  else STYLE_REGULAR

/-- FpdfWriter.load_font.  The filesystem is the parameter fs (Path.exists).
When the path does not exist the FileNotFoundError is raised before any
mutation, so the error result carries no updated session: the caller's state
is exactly the state before the call.  Otherwise the style is derived from the
filename stem, the font is registered with the backend under the fixed family,
and path -> (family, style) is recorded in loaded_fonts. -/
def FpdfWriter.load_font (fs : String → Bool) (w : FpdfWriter) (path : String) :
    Except PyError FpdfWriter :=
  if !(fs path) then
    Except.error (PyError.fileNotFoundError ("Font file not found: " ++ path))
  else
    let filename := pathStem path
    let style := loadFontStyle filename
    let family_name := DEFAULT_FONT_FAMILY
    Except.ok { w with
      pdf := w.pdf.add_font family_name style path
      loaded_fonts := dictInsert w.loaded_fonts path (family_name, style) }

/-- The style classification inside FpdfWriter.get_fonts (substring match on
the style display name, source lines 152-157, in source order). -/
def getFontsStyle (style : String) : String :=
  if strContains style "Italic" then STYLE_ITALIC
  else if strContains style "Bold" then STYLE_BOLD
  else STYLE_REGULAR

/-- The loop body of FpdfWriter.get_fonts: fonts[name] = FpdfFont(pdf,
DEFAULT_FONT_FAMILY, mapped style, size), for one spec
(name, family, style, size); the family display name spec.2.1 is ignored. -/
def getFontsStep (fonts : List (String × FpdfFont))
    (spec : String × String × String × ℚ) : List (String × FpdfFont) :=
  dictInsert fonts spec.1
    (FpdfFont.make DEFAULT_FONT_FAMILY (getFontsStyle spec.2.2.1) spec.2.2.2)

/-- FpdfWriter.get_fonts: builds a dict mapping each spec's logical name to an
FpdfFont over the fixed family, stores it as the session's font mapping, and
returns it. -/
def FpdfWriter.get_fonts (w : FpdfWriter)
    (font_specs : List (String × String × String × ℚ)) :
    List (String × FpdfFont) × FpdfWriter :=
  let fonts := font_specs.foldl getFontsStep []
  (fonts, { w with fonts := fonts })

/-- FpdfWriter.new_page: appends a page to the backend document. -/
def FpdfWriter.new_page (w : FpdfWriter) : FpdfWriter :=
  { w with pdf := w.pdf.add_page }

/-- FpdfWriter.set_font: records the handle as current and durably sets the
backend's active font to the handle's triple. -/
def FpdfWriter.set_font (w : FpdfWriter) (font : FpdfFont) : FpdfWriter :=
  { w with
    current_font := some font
    pdf := w.pdf.set_font font.font_family font.font_style font.font_size }

/-- Modelled from the spec: the defensive construction contract of section 4.1
("fails with InvalidArgument if size ≤ 0"), absent from the source __init__:
reject a non-positive size, otherwise construct exactly as the code does. -/
def FpdfFontChecked (font_family font_style : String) (font_size : ℚ) :
    Except String FpdfFont :=
  if font_size ≤ 0 then Except.error "InvalidArgument"
  else Except.ok (FpdfFont.make font_family font_style font_size)

/-- A session-level operation: one load_font call or one get_fonts call. -/
inductive Op where
  | load (path : String)
  | resolve (specs : List (String × String × String × ℚ))
deriving DecidableEq

/-- Runs one operation against the session; a raised FileNotFoundError leaves
the session exactly as it was (the source raises before mutating). -/
def runOp (fs : String → Bool) (w : FpdfWriter) : Op → FpdfWriter
  | Op.load path =>
    match w.load_font fs path with
    | Except.ok w2 => w2
    | Except.error _ => w
  | Op.resolve specs => (w.get_fonts specs).2

/-- Runs a sequence of load_font / get_fonts operations. -/
def runOps (fs : String → Bool) (w : FpdfWriter) (ops : List Op) : FpdfWriter :=
  ops.foldl (fun acc op => runOp fs acc op) w

/-- A style code is one of the three codes the module can actually produce:
Regular, Italic or Bold (each distinct from STYLE_BOLD_ITALIC = "BI"). -/
def styleOk (s : String) : Bool :=
  s == STYLE_REGULAR || s == STYLE_ITALIC || s == STYLE_BOLD

/-- Every style code recorded anywhere in the session is Regular, Italic or
Bold: in the backend's registered fonts (entry = (family, style, path)), in
the session's loaded_fonts registry (entry = (path, family, style)), and in
every produced FpdfFont of the session's font mapping. -/
def stylesOk (w : FpdfWriter) : Bool :=
  w.pdf.fonts.all (fun e => styleOk e.2.1) &&
  w.loaded_fonts.all (fun e => styleOk e.2.2) &&
  w.fonts.all (fun e => styleOk e.2.font_style)

/-! Helper lemmas about suffixes, the dict model and the style classifiers. -/

theorem isSuffixOf_drop_head {a b : Char} {l : List Char}
    (h : List.isSuffixOf [a, b] l = true) : List.isSuffixOf [b] l = true := by
  rw [List.isSuffixOf_iff_suffix] at h ⊢
  exact List.IsSuffix.trans ⟨[a], rfl⟩ h

theorem strEndsWith_BI {s : String} (h : strEndsWith s "BI" = true) :
    strEndsWith s "I" = true := by
  have h2 : List.isSuffixOf ['B', 'I'] s.toList = true := h
  exact isSuffixOf_drop_head h2

theorem strEndsWith_IB {s : String} (h : strEndsWith s "IB" = true) :
    strEndsWith s "B" = true := by
  have h2 : List.isSuffixOf ['I', 'B'] s.toList = true := h
  exact isSuffixOf_drop_head h2

theorem loadFontStyle_third_false {stem : String}
    (h1 : strEndsWith stem "I" = false) (h2 : strEndsWith stem "B" = false) :
    (strEndsWith stem "BI" || strEndsWith stem "IB") = false := by
  cases hb : strEndsWith stem "BI" with
  | true =>
    have hi := strEndsWith_BI hb
    rw [h1] at hi
    simp at hi
  | false =>
    cases hib : strEndsWith stem "IB" with
    | true =>
      have hbb := strEndsWith_IB hib
      rw [h2] at hbb
      simp at hbb
    | false => rfl

theorem styleOk_loadFontStyle (stem : String) : styleOk (loadFontStyle stem) = true := by
  unfold loadFontStyle
  cases h1 : strEndsWith stem "I" with
  | true => simp [h1]; decide
  | false =>
    cases h2 : strEndsWith stem "B" with
    | true => simp [h1, h2]; decide
    | false => simp [h1, h2, loadFontStyle_third_false h1 h2]; decide

theorem styleOk_getFontsStyle (sty : String) : styleOk (getFontsStyle sty) = true := by
  unfold getFontsStyle
  cases h1 : strContains sty "Italic" with
  | true => simp [h1]; decide
  | false =>
    cases h2 : strContains sty "Bold" with
    | true => simp [h1, h2]; decide
    | false => simp [h1, h2]; decide

theorem lookup_map_replace {α : Type} {d : List (String × α)} {k : String} (v : α)
    (h : d.any (fun p => p.1 == k) = true) :
    List.lookup k (d.map (fun p => if p.1 == k then (k, v) else p)) = some v := by
  induction d with
  | nil => simp at h
  | cons p t ih =>
    obtain ⟨p1, p2⟩ := p
    by_cases hp : (p1 == k) = true
    · rw [List.map_cons, if_pos hp]
      simp [List.lookup]
    · have hp2 : (p1 == k) = false := by
        cases hb : (p1 == k) with
        | true => exact absurd hb hp
        | false => rfl
      have hmem : t.any (fun p => p.1 == k) = true := by
        rw [List.any_cons] at h
        simpa [hp2] using h
      have hne : (k == p1) = false := by
        refine beq_eq_false_iff_ne.mpr ?_
        intro he
        rw [he] at hp2
        simp at hp2
      rw [List.map_cons, if_neg hp]
      simp only [List.lookup, hne]
      exact ih hmem

theorem lookup_append_single {α : Type} {d : List (String × α)} {k : String} (v : α)
    (h : d.any (fun p => p.1 == k) = false) :
    List.lookup k (d ++ [(k, v)]) = some v := by
  induction d with
  | nil => simp [List.lookup]
  | cons p t ih =>
    obtain ⟨p1, p2⟩ := p
    rw [List.any_cons] at h
    rw [Bool.or_eq_false_iff] at h
    obtain ⟨h1, h2⟩ := h
    have h1b : (p1 == k) = false := h1
    have hne : (k == p1) = false := by
      refine beq_eq_false_iff_ne.mpr ?_
      intro he
      rw [he] at h1b
      simp at h1b
    rw [List.cons_append]
    simp only [List.lookup, hne]
    exact ih h2

theorem lookup_dictInsert_self {α : Type} (d : List (String × α)) (k : String) (v : α) :
    List.lookup k (dictInsert d k v) = some v := by
  cases h : d.any (fun p => p.1 == k) with
  | true => simpa [dictInsert, h] using lookup_map_replace v h
  | false => simpa [dictInsert, h] using lookup_append_single v h

theorem lookup_map_replace_ne {α : Type} {d : List (String × α)} {a k : String} (v : α)
    (h : a ≠ k) :
    List.lookup a (d.map (fun p => if p.1 == k then (k, v) else p)) = List.lookup a d := by
  induction d with
  | nil => rfl
  | cons p t ih =>
    obtain ⟨p1, p2⟩ := p
    by_cases hp : (p1 == k) = true
    · have hpk : p1 = k := eq_of_beq hp
      have ha1 : (a == k) = false := beq_eq_false_iff_ne.mpr h
      have ha2 : (a == p1) = false := by rw [hpk]; exact ha1
      rw [List.map_cons, if_pos hp]
      simp only [List.lookup, ha1, ha2]
      exact ih
    · cases hap : a == p1 with
      | true =>
        rw [List.map_cons, if_neg hp]
        simp only [List.lookup, hap]
      | false =>
        rw [List.map_cons, if_neg hp]
        simp only [List.lookup, hap]
        exact ih

theorem lookup_append_single_ne {α : Type} {d : List (String × α)} {a k : String} (v : α)
    (h : a ≠ k) :
    List.lookup a (d ++ [(k, v)]) = List.lookup a d := by
  induction d with
  | nil => simp [List.lookup, beq_eq_false_iff_ne.mpr h]
  | cons p t ih =>
    obtain ⟨p1, p2⟩ := p
    cases hap : a == p1 with
    | true =>
      rw [List.cons_append]
      simp only [List.lookup, hap]
    | false =>
      rw [List.cons_append]
      simp only [List.lookup, hap]
      exact ih

theorem lookup_dictInsert_ne {α : Type} (d : List (String × α)) {a k : String} (v : α)
    (h : a ≠ k) :
    List.lookup a (dictInsert d k v) = List.lookup a d := by
  unfold dictInsert
  split
  · exact lookup_map_replace_ne v h
  · exact lookup_append_single_ne v h

theorem keys_map_replace {α : Type} (d : List (String × α)) (k : String) (v : α) :
    ((d.map (fun p => if p.1 == k then (k, v) else p)).map Prod.fst) = d.map Prod.fst := by
  induction d with
  | nil => rfl
  | cons p t ih =>
    by_cases hp : (p.1 == k) = true
    · have hpk : p.1 = k := eq_of_beq hp
      simp only [List.map_cons, if_pos hp, ih]
      rw [hpk]
    · have hp2 : (p.1 == k) = false := by simpa using hp
      simp only [List.map_cons, if_neg hp, ih]

theorem nodup_keys_dictInsert {α : Type} (d : List (String × α)) (k : String) (v : α)
    (h : (d.map Prod.fst).Nodup) :
    ((dictInsert d k v).map Prod.fst).Nodup := by
  unfold dictInsert
  split
  · rw [keys_map_replace]; exact h
  · next hany =>
    have hany2 : d.any (fun p => p.1 == k) = false := by
      cases hda : d.any (fun p => p.1 == k) with
      | true => exact absurd hda hany
      | false => rfl
    rw [List.map_append]
    refine List.nodup_append.mpr ⟨h, List.nodup_singleton k, ?_⟩
    intro x hx hxk
    have hxe : x = k := by simpa using hxk
    rcases List.mem_map.mp hx with ⟨p, hp, hpk⟩
    have hb : (p.1 == k) = true := beq_iff_eq.mpr (hpk.trans hxe)
    have hda : d.any (fun p => p.1 == k) = true := List.any_eq_true.mpr ⟨p, hp, hb⟩
    rw [hany2] at hda
    simp at hda

theorem mem_dictInsert {α : Type} {d : List (String × α)} {k : String} {v : α}
    {e : String × α} (h : e ∈ dictInsert d k v) : e ∈ d ∨ e = (k, v) := by
  unfold dictInsert at h
  split at h
  · rcases List.mem_map.mp h with ⟨p, hp, hpe⟩
    by_cases hk : (p.1 == k) = true
    · rw [if_pos hk] at hpe
      exact Or.inr hpe.symm
    · rw [if_neg hk] at hpe
      exact Or.inl (hpe ▸ hp)
  · rcases List.mem_append.mp h with h1 | h1
    · exact Or.inl h1
    · right
      simpa using h1

theorem all_dictInsert {α : Type} (p : String × α → Bool) {d : List (String × α)}
    {k : String} {v : α} (hd : d.all p = true) (hv : p (k, v) = true) :
    (dictInsert d k v).all p = true := by
  rw [List.all_eq_true] at hd ⊢
  intro e he
  rcases mem_dictInsert he with h | h
  · exact hd e h
  · rw [h]; exact hv

theorem lookup_foldl_getFontsStep (specs : List (String × String × String × ℚ)) :
    ∀ (acc : List (String × FpdfFont)) (name : String) (font : FpdfFont),
      List.lookup name (specs.foldl getFontsStep acc) = some font →
      List.lookup name acc = some font ∨
        ∃ spec, spec ∈ specs ∧ spec.1 = name ∧
          font = FpdfFont.make DEFAULT_FONT_FAMILY (getFontsStyle spec.2.2.1) spec.2.2.2 := by
  induction specs with
  | nil =>
    intro acc name font h
    exact Or.inl h
  | cons s rest ih =>
    intro acc name font h
    rw [List.foldl_cons] at h
    rcases ih _ name font h with h1 | ⟨spec, hmem, hname, hfont⟩
    · by_cases he : name = s.1
      · subst he
        unfold getFontsStep at h1
        rw [lookup_dictInsert_self] at h1
        right
        exact ⟨s, List.mem_cons_self s rest, rfl, (Option.some.inj h1).symm⟩
      · unfold getFontsStep at h1
        rw [lookup_dictInsert_ne _ _ he] at h1
        exact Or.inl h1
    · exact Or.inr ⟨spec, List.mem_cons_of_mem s hmem, hname, hfont⟩

theorem isSome_lookup_dictInsert {α : Type} (d : List (String × α)) (a k : String)
    (v : α) (h : (List.lookup a d).isSome = true) :
    (List.lookup a (dictInsert d k v)).isSome = true := by
  by_cases he : a = k
  · subst he
    rw [lookup_dictInsert_self]
    rfl
  · rw [lookup_dictInsert_ne d v he]
    exact h

theorem isSome_lookup_foldl_getFontsStep (specs : List (String × String × String × ℚ)) :
    ∀ (acc : List (String × FpdfFont)) (a : String),
      (List.lookup a acc).isSome = true →
      (List.lookup a (specs.foldl getFontsStep acc)).isSome = true := by
  induction specs with
  | nil =>
    intro acc a h
    exact h
  | cons s rest ih =>
    intro acc a h
    rw [List.foldl_cons]
    exact ih _ a (isSome_lookup_dictInsert acc a s.1 _ h)

theorem exists_lookup_foldl_getFontsStep (specs : List (String × String × String × ℚ)) :
    ∀ (acc : List (String × FpdfFont)) (spec : String × String × String × ℚ),
      spec ∈ specs →
      (List.lookup spec.1 (specs.foldl getFontsStep acc)).isSome = true := by
  induction specs with
  | nil =>
    intro acc spec h
    simp at h
  | cons s rest ih =>
    intro acc spec hmem
    rw [List.foldl_cons]
    rcases List.mem_cons.mp hmem with he | hr
    · subst he
      refine isSome_lookup_foldl_getFontsStep rest _ spec.1 ?_
      show (List.lookup spec.1 (dictInsert acc spec.1 _)).isSome = true
      rw [lookup_dictInsert_self]
      rfl
    · exact ih _ spec hr

theorem nodup_foldl_getFontsStep (specs : List (String × String × String × ℚ)) :
    ∀ acc : List (String × FpdfFont), (acc.map Prod.fst).Nodup →
      ((specs.foldl getFontsStep acc).map Prod.fst).Nodup := by
  induction specs with
  | nil =>
    intro acc h
    exact h
  | cons s rest ih =>
    intro acc h
    rw [List.foldl_cons]
    exact ih _ (nodup_keys_dictInsert _ _ _ h)

theorem all_foldl_getFontsStep (specs : List (String × String × String × ℚ)) :
    ∀ acc : List (String × FpdfFont),
      acc.all (fun e => styleOk e.2.font_style) = true →
      (specs.foldl getFontsStep acc).all (fun e => styleOk e.2.font_style) = true := by
  induction specs with
  | nil =>
    intro acc h
    exact h
  | cons s rest ih =>
    intro acc h
    rw [List.foldl_cons]
    refine ih _ ?_
    exact all_dictInsert _ h (styleOk_getFontsStyle s.2.2.1)

/-! Claim theorems. -/

/-- C1: for every FontHandle and every text string, if the backend had an
active font triple (non-empty family, per the source's truthiness test) before
the call, then after width_of returns the backend's active font triple equals
the triple that was active before the call, for every handle (in particular
for any handle whose family/style/size differ from the active ones). -/
theorem width_of_preserves_active (cw : String → String → Char → ℚ)
    (f : FpdfFont) (pdf : FPDF) (text : String) (h : pdf.font_family ≠ "") :
    ((f.width_of cw pdf text).2).font_family = pdf.font_family ∧
    ((f.width_of cw pdf text).2).font_style = pdf.font_style ∧
    ((f.width_of cw pdf text).2).font_size_pt = pdf.font_size_pt := by
  simp [FpdfFont.width_of, FPDF.set_font, h]

/-- Witness for C1: a backend with helvetica 10pt active, measured through a
GentiumBasic bold 12pt handle, keeps helvetica 10pt active. -/
theorem width_of_preserves_active_witness :
    ((FPDF.start.set_font "helvetica" "" 10).font_family ≠ "") ∧
    ((((FpdfFont.make "GentiumBasic" "B" 12).width_of (fun _ _ _ => 500)
          (FPDF.start.set_font "helvetica" "" 10) "Test").2).font_family
        = (FPDF.start.set_font "helvetica" "" 10).font_family ∧
      (((FpdfFont.make "GentiumBasic" "B" 12).width_of (fun _ _ _ => 500)
          (FPDF.start.set_font "helvetica" "" 10) "Test").2).font_style
        = (FPDF.start.set_font "helvetica" "" 10).font_style ∧
      (((FpdfFont.make "GentiumBasic" "B" 12).width_of (fun _ _ _ => 500)
          (FPDF.start.set_font "helvetica" "" 10) "Test").2).font_size_pt
        = (FPDF.start.set_font "helvetica" "" 10).font_size_pt) :=
  ⟨by decide,
    width_of_preserves_active (fun _ _ _ => 500) (FpdfFont.make "GentiumBasic" "B" 12)
      (FPDF.start.set_font "helvetica" "" 10) "Test" (by decide)⟩

/-- C3 counterexample: on a fresh backend (no font ever set) the claim says the
active font is still unset after width_of; in fact width_of sets the handle's
font for measuring and then skips the restore (the captured family "" is
falsy), so the handle's family "GentiumBasic" is left active, not "". -/
theorem width_of_fresh_counterexample :
    (((FpdfFont.make "GentiumBasic" "" 12).width_of (fun _ _ _ => 0)
        FPDF.start "x").2).font_family = "GentiumBasic" ∧
    ("GentiumBasic" : String) ≠ "" := by
  constructor
  · decide
  · decide

/-- C3 amended: if the backend had no active font before the call (empty
family), then after width_of returns the backend's active triple is the
handle's triple: the measurement set_font persists because the restore step is
skipped. -/
theorem width_of_fresh_sets_handle_font (cw : String → String → Char → ℚ)
    (f : FpdfFont) (pdf : FPDF) (text : String) (h : pdf.font_family = "") :
    ((f.width_of cw pdf text).2).font_family = f.font_family ∧
    ((f.width_of cw pdf text).2).font_style = f.font_style ∧
    ((f.width_of cw pdf text).2).font_size_pt = f.font_size := by
  simp [FpdfFont.width_of, FPDF.set_font, h]

/-- Witness for the amended C3 at a fresh backend and a concrete handle. -/
theorem width_of_fresh_sets_handle_font_witness :
    (FPDF.start.font_family = "") ∧
    ((((FpdfFont.make "GentiumBasic" "I" 12).width_of (fun _ _ _ => 0)
          FPDF.start "x").2).font_family = (FpdfFont.make "GentiumBasic" "I" 12).font_family ∧
      (((FpdfFont.make "GentiumBasic" "I" 12).width_of (fun _ _ _ => 0)
          FPDF.start "x").2).font_style = (FpdfFont.make "GentiumBasic" "I" 12).font_style ∧
      (((FpdfFont.make "GentiumBasic" "I" 12).width_of (fun _ _ _ => 0)
          FPDF.start "x").2).font_size_pt = (FpdfFont.make "GentiumBasic" "I" 12).font_size) :=
  ⟨rfl,
    width_of_fresh_sets_handle_font (fun _ _ _ => 0) (FpdfFont.make "GentiumBasic" "I" 12)
      FPDF.start "x" rfl⟩

/-- C4: a FontHandle built with positive size s has height = s,
ascent = 0.8 s, descent = 0.2 s, leading = 0.2 s.  The embedding is an
immutable structure and the source assigns these attributes only in __init__,
so they are never mutated after construction. -/
theorem fpdfFont_metrics (fam sty : String) (s : ℚ) (h : 0 < s) :
    (FpdfFont.make fam sty s).height = s ∧
    (FpdfFont.make fam sty s).ascent = 0.8 * s ∧
    (FpdfFont.make fam sty s).descent = 0.2 * s ∧
    (FpdfFont.make fam sty s).leading = 0.2 * s := by
  refine ⟨rfl, ?_, ?_, ?_⟩ <;>
    simp [FpdfFont.make, FONT_ASCENT_RATIO, FONT_DESCENT_RATIO, FONT_LEADING_RATIO] <;>
    ring

/-- Witness for C4 at size 12. -/
theorem fpdfFont_metrics_witness :
    ((0 : ℚ) < 12) ∧
    ((FpdfFont.make "GentiumBasic" "" 12).height = 12 ∧
      (FpdfFont.make "GentiumBasic" "" 12).ascent = 0.8 * 12 ∧
      (FpdfFont.make "GentiumBasic" "" 12).descent = 0.2 * 12 ∧
      (FpdfFont.make "GentiumBasic" "" 12).leading = 0.2 * 12) :=
  ⟨by norm_num, fpdfFont_metrics "GentiumBasic" "" 12 (by norm_num)⟩

/-- C7: width_of of the empty string is exactly 0, for every handle, every
backend state and every backend width table. -/
theorem width_of_empty (cw : String → String → Char → ℚ) (f : FpdfFont)
    (pdf : FPDF) :
    (f.width_of cw pdf "").1 = 0 := by
  have h : ("" : String).toList = [] := rfl
  simp [FpdfFont.width_of, FPDF.get_string_width, h]

/-- C8: close returns the serialized byte buffer iff the output target is the
in-memory sink (path = none); with a concrete path it writes the serialized
bytes to that path and returns nothing. -/
theorem close_returns_bytes_iff (output : FPDF → List Nat) (w : FpdfWriter) :
    ((w.close output).1.isSome ↔ w.path = none) ∧
    (w.path = none → w.close output = (some (output w.pdf), none)) ∧
    (∀ p, w.path = some p → w.close output = (none, some (p, output w.pdf))) := by
  cases h : w.path with
  | none => simp [FpdfWriter.close, h]
  | some p => simp [FpdfWriter.close, h]

/-- Witness for C8: closing a session whose target is the path "out.pdf"
writes the bytes there and returns nothing. -/
theorem close_returns_bytes_iff_witness :
    (FpdfWriter.make (some "out.pdf") 612 792).close (fun _ => [37, 80]) =
      (none, some ("out.pdf", [37, 80])) :=
  (close_returns_bytes_iff (fun _ => [37, 80])
    (FpdfWriter.make (some "out.pdf") 612 792)).2.2 "out.pdf" rfl

/-- C9 counterexample: constructing a handle with size -1 does not fail: the
source __init__ has no validation at all and yields a handle with
font_size = -1 (and height = -1), while the claimed InvalidArgument contract
(FpdfFontChecked, modelled from the spec's words) rejects it. -/
theorem fpdfFont_nonpositive_counterexample :
    (FpdfFont.make "GentiumBasic" "" (-1)).font_size = -1 ∧
    (FpdfFont.make "GentiumBasic" "" (-1)).height = -1 ∧
    FpdfFontChecked "GentiumBasic" "" (-1) = Except.error "InvalidArgument" := by
  refine ⟨rfl, rfl, ?_⟩
  unfold FpdfFontChecked
  rw [if_pos (by norm_num : (-1 : ℚ) ≤ 0)]

/-- C9 amended: construction never fails; on positive sizes it agrees with the
defensive InvalidArgument contract (no other validation of the inputs), and
for every size, positive or not, the code simply stores the size. -/
theorem fpdfFont_no_validation (fam sty : String) (s : ℚ) :
    (0 < s → FpdfFontChecked fam sty s = Except.ok (FpdfFont.make fam sty s)) ∧
    (FpdfFont.make fam sty s).font_size = s := by
  constructor
  · intro h
    unfold FpdfFontChecked
    rw [if_neg (not_le.mpr h)]
  · rfl

/-- Witness for the amended C9 at size 12. -/
theorem fpdfFont_no_validation_witness :
    FpdfFontChecked "GentiumBasic" "" 12 =
      Except.ok (FpdfFont.make "GentiumBasic" "" 12) :=
  (fpdfFont_no_validation "GentiumBasic" "" 12).1 (by norm_num)

/-- C6: load_font on a path the filesystem does not know raises
FileNotFoundError with a message that contains the path (the path is a suffix
of the message), and the session — its loaded_fonts registry and its backend
state included — is left exactly as it was before the call. -/
theorem load_font_missing (fs : String → Bool) (w : FpdfWriter) (path : String)
    (h : fs path = false) :
    w.load_font fs path =
      Except.error (PyError.fileNotFoundError ("Font file not found: " ++ path)) ∧
    (∃ pre, "Font file not found: " ++ path = pre ++ path) ∧
    runOp fs w (Op.load path) = w := by
  have h1 : w.load_font fs path =
      Except.error (PyError.fileNotFoundError ("Font file not found: " ++ path)) := by
    simp [FpdfWriter.load_font, h]
  refine ⟨h1, ⟨"Font file not found: ", rfl⟩, ?_⟩
  simp [runOp, h1]

/-- Witness for C6: a filesystem with no files, a fresh session, and the path
"missing.ttf". -/
theorem load_font_missing_witness :
    (FpdfWriter.make none 612 792).load_font (fun _ => false) "missing.ttf" =
      Except.error (PyError.fileNotFoundError ("Font file not found: " ++ "missing.ttf")) ∧
    (∃ pre, "Font file not found: " ++ "missing.ttf" = pre ++ "missing.ttf") ∧
    runOp (fun _ => false) (FpdfWriter.make none 612 792) (Op.load "missing.ttf") =
      FpdfWriter.make none 612 792 :=
  load_font_missing (fun _ => false) (FpdfWriter.make none 612 792) "missing.ttf" rfl

/-- C2 counterexample: the claim says a stem ending in "BI" is registered with
the BoldItalic style code.  In the source the endswith("I") check runs first,
so "GenBasBI.ttf" (stem "GenBasBI") is classified and registered as Italic,
not BoldItalic. -/
theorem load_font_BI_counterexample :
    loadFontStyle (pathStem "GenBasBI.ttf") = STYLE_ITALIC ∧
    STYLE_ITALIC ≠ STYLE_BOLD_ITALIC ∧
    (runOp (fun _ => true) (FpdfWriter.make none 612 792)
        (Op.load "GenBasBI.ttf")).loaded_fonts =
      [("GenBasBI.ttf", DEFAULT_FONT_FAMILY, STYLE_ITALIC)] := by
  refine ⟨by decide, by decide, by decide⟩

/-- C2 amended: the style derived from the filename stem is Italic when the
stem ends in "I" (hence also when it ends in "BI"), else Bold when it ends in
"B" (hence also when it ends in "IB"), and Regular otherwise; the BoldItalic
branch of the chain is unreachable, so BoldItalic is never assigned. -/
theorem loadFontStyle_eq (stem : String) :
    loadFontStyle stem =
      if strEndsWith stem "I" then STYLE_ITALIC
      else if strEndsWith stem "B" then STYLE_BOLD
      else STYLE_REGULAR := by
  unfold loadFontStyle
  cases h1 : strEndsWith stem "I" with
  | true => simp [h1]
  | false =>
    cases h2 : strEndsWith stem "B" with
    | true => simp [h1, h2]
    | false => simp [h1, h2, loadFontStyle_third_false h1 h2]

/-- C5: get_fonts returns a mapping with one FpdfFont per logical name: its
key list has no duplicates, every spec's logical name has an entry in the
returned mapping, and every font looked up under a name comes from a spec
with that name, carries the single fixed family identifier regardless of the
family display name, and has style Italic when the style display name
contains "Italic" (even when it also contains "Bold"), else Bold when it
contains "Bold", else Regular. -/
theorem get_fonts_spec (w : FpdfWriter) (specs : List (String × String × String × ℚ)) :
    (((w.get_fonts specs).1.map Prod.fst).Nodup) ∧
    (∀ spec, spec ∈ specs →
      (List.lookup spec.1 (w.get_fonts specs).1).isSome = true) ∧
    (∀ name font, List.lookup name (w.get_fonts specs).1 = some font →
      font.font_family = DEFAULT_FONT_FAMILY ∧
      ∃ spec, spec ∈ specs ∧ spec.1 = name ∧
        font.font_size = spec.2.2.2 ∧
        (strContains spec.2.2.1 "Italic" = true → font.font_style = STYLE_ITALIC) ∧
        (strContains spec.2.2.1 "Italic" = false → strContains spec.2.2.1 "Bold" = true →
          font.font_style = STYLE_BOLD) ∧
        (strContains spec.2.2.1 "Italic" = false → strContains spec.2.2.1 "Bold" = false →
          font.font_style = STYLE_REGULAR)) := by
  have hfold : (w.get_fonts specs).1 = specs.foldl getFontsStep [] := rfl
  refine ⟨?_, ?_, ?_⟩
  · rw [hfold]
    exact nodup_foldl_getFontsStep specs [] (by simp)
  · intro spec hmem
    rw [hfold]
    exact exists_lookup_foldl_getFontsStep specs [] spec hmem
  · intro name font h
    rw [hfold] at h
    rcases lookup_foldl_getFontsStep specs [] name font h with h1 | ⟨spec, hmem, hname, hfont⟩
    · simp at h1
    subst hfont
    refine ⟨rfl, spec, hmem, hname, rfl, ?_, ?_, ?_⟩
    · intro hi
      show getFontsStyle spec.2.2.1 = STYLE_ITALIC
      simp [getFontsStyle, hi]
    · intro hi hb
      show getFontsStyle spec.2.2.1 = STYLE_BOLD
      simp [getFontsStyle, hi, hb]
    · intro hi hb
      show getFontsStyle spec.2.2.1 = STYLE_REGULAR
      simp [getFontsStyle, hi, hb]

/-- Witness for C5: one spec whose style display name is "Bold Italic"; its
logical name "boldital" does get an entry in the returned mapping, and the
looked-up font is Italic (the Italic branch wins over Bold) with the fixed
family. -/
theorem get_fonts_spec_witness :
    (List.lookup "boldital" (((FpdfWriter.make none 612 792).get_fonts
        [("boldital", "Gentium Basic", "Bold Italic", (12 : ℚ))]).1)).isSome = true ∧
    ((FpdfFont.make DEFAULT_FONT_FAMILY STYLE_ITALIC 12).font_family = DEFAULT_FONT_FAMILY ∧
      ∃ spec, spec ∈ [("boldital", "Gentium Basic", "Bold Italic", (12 : ℚ))] ∧
        spec.1 = "boldital" ∧
        (FpdfFont.make DEFAULT_FONT_FAMILY STYLE_ITALIC 12).font_size = spec.2.2.2 ∧
        (strContains spec.2.2.1 "Italic" = true →
          (FpdfFont.make DEFAULT_FONT_FAMILY STYLE_ITALIC 12).font_style = STYLE_ITALIC) ∧
        (strContains spec.2.2.1 "Italic" = false → strContains spec.2.2.1 "Bold" = true →
          (FpdfFont.make DEFAULT_FONT_FAMILY STYLE_ITALIC 12).font_style = STYLE_BOLD) ∧
        (strContains spec.2.2.1 "Italic" = false → strContains spec.2.2.1 "Bold" = false →
          (FpdfFont.make DEFAULT_FONT_FAMILY STYLE_ITALIC 12).font_style = STYLE_REGULAR)) :=
  ⟨(get_fonts_spec (FpdfWriter.make none 612 792)
      [("boldital", "Gentium Basic", "Bold Italic", (12 : ℚ))]).2.1
      ("boldital", "Gentium Basic", "Bold Italic", (12 : ℚ)) (List.mem_singleton.mpr rfl),
    (get_fonts_spec (FpdfWriter.make none 612 792)
      [("boldital", "Gentium Basic", "Bold Italic", (12 : ℚ))]).2.2 "boldital"
      (FpdfFont.make DEFAULT_FONT_FAMILY STYLE_ITALIC 12) (by rfl)⟩

/-- One load_font or get_fonts call keeps every recorded style code in
{Regular, Italic, Bold}. -/
theorem stylesOk_runOp (fs : String → Bool) (w : FpdfWriter) (op : Op)
    (h : stylesOk w = true) : stylesOk (runOp fs w op) = true := by
  unfold stylesOk at h
  rw [Bool.and_eq_true, Bool.and_eq_true] at h
  obtain ⟨⟨h1, h2⟩, h3⟩ := h
  cases op with
  | load path =>
    cases hfs : fs path with
    | false =>
      have hl : w.load_font fs path =
          Except.error (PyError.fileNotFoundError ("Font file not found: " ++ path)) := by
        simp [FpdfWriter.load_font, hfs]
      have hrw : runOp fs w (Op.load path) = w := by
        simp [runOp, hl]
      rw [hrw]
      unfold stylesOk
      rw [Bool.and_eq_true, Bool.and_eq_true]
      exact ⟨⟨h1, h2⟩, h3⟩
    | true =>
      have hl : w.load_font fs path =
          Except.ok { w with
            pdf := w.pdf.add_font DEFAULT_FONT_FAMILY (loadFontStyle (pathStem path)) path
            loaded_fonts := dictInsert w.loaded_fonts path
              (DEFAULT_FONT_FAMILY, loadFontStyle (pathStem path)) } := by
        simp [FpdfWriter.load_font, hfs]
      have hrw : runOp fs w (Op.load path) = { w with
          pdf := w.pdf.add_font DEFAULT_FONT_FAMILY (loadFontStyle (pathStem path)) path
          loaded_fonts := dictInsert w.loaded_fonts path
            (DEFAULT_FONT_FAMILY, loadFontStyle (pathStem path)) } := by
        simp [runOp, hl]
      rw [hrw]
      unfold stylesOk
      rw [Bool.and_eq_true, Bool.and_eq_true]
      refine ⟨⟨?_, ?_⟩, ?_⟩
      · show ((w.pdf.add_font DEFAULT_FONT_FAMILY (loadFontStyle (pathStem path))
            path).fonts.all (fun e => styleOk e.2.1)) = true
        unfold FPDF.add_font
        split
        · exact h1
        · show ((w.pdf.fonts ++
              [(DEFAULT_FONT_FAMILY, loadFontStyle (pathStem path), path)]).all
              (fun e => styleOk e.2.1)) = true
          rw [List.all_append, Bool.and_eq_true]
          refine ⟨h1, ?_⟩
          simp only [List.all_cons, List.all_nil, Bool.and_true]
          exact styleOk_loadFontStyle _
      · show ((dictInsert w.loaded_fonts path
            (DEFAULT_FONT_FAMILY, loadFontStyle (pathStem path))).all
            (fun e => styleOk e.2.2)) = true
        exact all_dictInsert _ h2 (styleOk_loadFontStyle _)
      · exact h3
  | resolve specs =>
    show stylesOk ((w.get_fonts specs).2) = true
    unfold stylesOk FpdfWriter.get_fonts
    rw [Bool.and_eq_true, Bool.and_eq_true]
    exact ⟨⟨h1, h2⟩, all_foldl_getFontsStep specs [] rfl⟩

/-- Any sequence of load_font / get_fonts calls keeps every recorded style
code in {Regular, Italic, Bold}. -/
theorem stylesOk_runOps (fs : String → Bool) (ops : List Op) :
    ∀ w : FpdfWriter, stylesOk w = true → stylesOk (runOps fs w ops) = true := by
  induction ops with
  | nil =>
    intro w h
    exact h
  | cons op rest ih =>
    intro w h
    show stylesOk (runOps fs (runOp fs w op) rest) = true
    exact ih _ (stylesOk_runOp fs w op h)

/-- C10: the BoldItalic style code is never produced.  The code "BI" is
outside the style set {Regular, Italic, Bold}; the load_font classifier and
the get_fonts classifier only ever yield codes in that set (in particular the
BoldItalic branch of load_font is unreachable: a stem ending in "BI" already
ends in "I" and one ending in "IB" already ends in "B"); and after any
sequence of load_font and get_fonts calls on a fresh session, every style
registered with the backend, recorded in loaded_fonts, or carried by a
produced FpdfFont is in that set. -/
theorem no_bold_italic_ever :
    styleOk STYLE_BOLD_ITALIC = false ∧
    (∀ stem, styleOk (loadFontStyle stem) = true) ∧
    (∀ sty, styleOk (getFontsStyle sty) = true) ∧
    (∀ (fs : String → Bool) (path0 : Option String) (wpt hpt : ℚ) (ops : List Op),
      stylesOk (runOps fs (FpdfWriter.make path0 wpt hpt) ops) = true) := by
  refine ⟨by decide, styleOk_loadFontStyle, styleOk_getFontsStyle, ?_⟩
  intro fs path0 wpt hpt ops
  exact stylesOk_runOps fs ops _ rfl

end PyKerning
